import Mathlib

/-!
# Verification of the kumo-budget CSV import/reconciliation pipeline

Shallow embedding of the import pipeline of the kumo-budget repository:
the CSV parser and row hasher (`app/routes/projects.$id.import.$batchId.map.tsx`),
the staging-row store and batch queries (`app/lib/db/queries`, import-batch module),
the commit action (`app/routes/projects.$id.import.$batchId.review.tsx`),
and the AI tag-suggestion endpoint (`app/routes/projects.$id.accounts.tsx`,
suggest-tags action).

Modelling conventions:
* Entity ids (UUID strings / numbers in the source) are modelled as `Nat`;
  only equality on ids is ever used by the embedded code.
* JavaScript strings are modelled as Lean `String` over Unicode scalar values.
  `charCodeAt` is modelled as `Char.toNat`; the two agree on all characters of
  the Basic Multilingual Plane, and no claim depends on surrogate pairs.
* JSON-serialised columns (`rawData`, `tagIds`, `columnMapping`) are modelled
  by their deserialised values (`List String`, `Option (List Nat)`, structure);
  JSON round-trips losslessly so nothing is lost.
* Nullable columns are `Option`; JavaScript `??` becomes `Option.getD`.
-/

namespace KumoBudget

/-! ## JavaScript string primitives

The embedded routines use `split('\n')`, `trim()`, `toLowerCase()` and
`join('|')`.  They are defined here over `List Char` so that every definition
is structurally recursive and kernel-reducible. -/

/-- The characters JavaScript's `trim()` removes (WhiteSpace ∪ LineTerminator). -/
def isJsWhitespace (c : Char) : Bool :=
  c == ' ' || c == '\t' || c == '\n' || c == '\r' || c == '\x0b' || c == '\x0c' ||
  c.toNat == 0xa0 || c.toNat == 0x1680 ||
  (0x2000 ≤ c.toNat && c.toNat ≤ 0x200a) ||
  c.toNat == 0x2028 || c.toNat == 0x2029 || c.toNat == 0x202f ||
  c.toNat == 0x205f || c.toNat == 0x3000 || c.toNat == 0xfeff

/-- Model of `cs.trim()`: strip leading and trailing JavaScript whitespace. -/
def trimChars (cs : List Char) : List Char :=
  ((cs.dropWhile isJsWhitespace).reverse.dropWhile isJsWhitespace).reverse

/-- JavaScript `s.trim()`. -/
def jsTrim (s : String) : String := ⟨trimChars s.data⟩

/-- JavaScript `s.split(sep)` for a one-character separator: every occurrence
splits, empty pieces are kept. -/
def splitOnChar (sep : Char) : List Char → List (List Char)
  | [] => [[]]
  | c :: cs =>
    match splitOnChar sep cs with
    | [] => [[]]
    | l :: ls => if c = sep then [] :: l :: ls else (c :: l) :: ls

/-- JavaScript `fields.join('|')` (as a character list). -/
def joinSep (sep : Char) : List String → List Char
  | [] => []
  | [s] => s.data
  | s :: rest => s.data ++ sep :: joinSep sep rest

/-- JavaScript `row.join('|')`. -/
def rowJoin (row : List String) : String := ⟨joinSep '|' row⟩

/-- JavaScript `s.toLowerCase()` (ASCII case mapping; the embedded code only
compares results of this function with each other, so the restriction to the
ASCII mapping is invisible to every claim). -/
def jsToLower (s : String) : String := ⟨s.data.map Char.toLower⟩

/-! ## Row hasher (`hashString`, map.tsx lines 56–65)

The loop body is `hash = (hash << 5) - hash + char; hash = hash & hash`, and
the result is `Math.abs(hash).toString(16).padStart(8, '0')`.  The shift and
the bitwise-and operate on 32-bit signed integers (`ToInt32`); the
subtraction and addition in between are exact double-precision arithmetic on
small magnitudes. -/

/-- Model of `ToInt32`: wrap an integer into the signed 32-bit range `[-2^31, 2^31)`. -/
def wrap32 (n : Int) : Int := (n + 2 ^ 31) % 2 ^ 32 - 2 ^ 31

/-- One loop iteration of `hashString`:
`hash = (hash << 5) - hash + char; hash = hash & hash`.
`hash << 5` is `ToInt32(hash * 32)`; the subtraction and addition are exact
(double-precision, small magnitudes); `hash & hash` is `ToInt32` again. -/
def jsHashStep (h : Int) (c : Nat) : Int := wrap32 (wrap32 (h * 32) - h + c)

/-- The accumulator of `hashString` after consuming the whole string. -/
def jsHash (s : String) : Int := s.data.foldl (fun h c => jsHashStep h c.toNat) 0

/-- Model of `n.toString(16)` for a natural number: lowercase hexadecimal digits. -/
def toHex (n : Nat) : List Char := Nat.toDigits 16 n

/-- Model of `Math.abs(hash).toString(16).padStart(8, '0')`. -/
def toHexPadded (n : Nat) : String :=
  let ds := toHex n
  ⟨List.replicate (8 - ds.length) '0' ++ ds⟩

/-- Model of `hashString` (map.tsx lines 56–65). -/
def hashString (s : String) : String := toHexPadded (jsHash s).natAbs

/-! ## CSV parser (`parseCSV`, map.tsx lines 26–54) -/

/-- The output shape of `parseCSV`. -/
structure ParsedCSV where
  headers : List String
  rows : List (List String)
  deriving Repr, DecidableEq

/-- The scan of `parseLine` (map.tsx lines 31–48): walk the characters with a
current-field accumulator and an inside-quotes flag; `"` toggles the flag and
is dropped; `,` outside quotes ends the field; every finished field is
trimmed. -/
def parseLineAux : List Char → List Char → Bool → List String
  | [], current, _ => [(⟨trimChars current⟩ : String)]
  | c :: rest, current, inQuotes =>
    if c = '"' then
      parseLineAux rest current (!inQuotes)
    else if c = ',' ∧ inQuotes = false then
      (⟨trimChars current⟩ : String) :: parseLineAux rest [] inQuotes
    else
      parseLineAux rest (current ++ [c]) inQuotes

/-- Model of `parseLine` (map.tsx lines 31–48). -/
def parseLine (line : String) : List String := parseLineAux line.data [] false

/-- Model of `parseCSV` (map.tsx lines 26–54): split on `'\n'`, drop blank lines
(`filter(line => line.trim())`), first remaining line is the header row,
the rest are data rows. -/
def parseCSV (content : String) : ParsedCSV :=
  let lines := ((splitOnChar '\n' content.data).map
    (fun cs => (⟨cs⟩ : String))).filter (fun l => !(jsTrim l == ""))
  match lines with
  | [] => ⟨[], []⟩
  | l :: ls => ⟨parseLine l, ls.map parseLine⟩

/-! ## Reference definitions transcribed from the specification's words

These two families of definitions follow the natural-language description of
the hasher and the parser, to be compared with the definitions transcribed
from the source code above. -/

/-- Reference hash step as the specification words it: multiply the
accumulator by 31, wrap to the signed 32-bit range, then add the character
code (the addition itself is not wrapped). -/
def refHashStep (h : Int) (c : Nat) : Int := wrap32 (31 * h) + c

/-- Reference hash accumulator: fold `refHashStep` over the characters
starting from 0. -/
def refHash (s : String) : Int := s.data.foldl (fun h c => refHashStep h c.toNat) 0

/-- Reference hasher as the specification words it: absolute value of the
folded accumulator, rendered as lowercase hexadecimal left-padded to 8
characters. -/
def refHashString (s : String) : String := toHexPadded (refHash s).natAbs

/-- Corrected reference hash step: the 32-bit wrap is applied after adding
the character code as well, i.e. each step is `wrap32 (31 * h + c)`. -/
def refHashStepWrapAfterAdd (h : Int) (c : Nat) : Int := wrap32 (31 * h + c)

/-- Corrected reference hasher built from `refHashStepWrapAfterAdd`. -/
def refHashStringWrapAfterAdd (s : String) : String :=
  toHexPadded (s.data.foldl (fun h c => refHashStepWrapAfterAdd h c.toNat) 0).natAbs

/-- Reference field scan as the specification words it: scan left to right
with a current-field accumulator and an inside-quotes flag; each `"` toggles
the flag and is removed from the output; a `,` outside quotes ends the field;
each field is trimmed of surrounding whitespace. -/
def specFieldStep (st : List String × List Char × Bool) (c : Char) :
    List String × List Char × Bool :=
  let (fields, current, inQuotes) := st
  if c = '"' then (fields, current, !inQuotes)
  else if c = ',' ∧ inQuotes = false then
    (fields ++ [(⟨trimChars current⟩ : String)], [], inQuotes)
  else (fields, current ++ [c], inQuotes)

/-- Reference line splitter: run `specFieldStep` over the line and emit the
final pending field. -/
def specSplitFields (line : String) : List String :=
  let st := line.data.foldl specFieldStep ([], [], false)
  st.1 ++ [(⟨trimChars st.2.1⟩ : String)]

/-- Reference CSV parser as the specification words it: a blank file yields
empty headers and rows; otherwise split on newlines, discard blank lines,
take the first non-blank line as the header and the rest as data rows, each
split by the reference field scan. -/
def parseCSVSpec (content : String) : ParsedCSV :=
  let nonBlank := ((splitOnChar '\n' content.data).map
    (fun cs => (⟨cs⟩ : String))).filter (fun l => !(jsTrim l == ""))
  match nonBlank with
  | [] => ⟨[], []⟩
  | l :: ls => ⟨specSplitFields l, ls.map specSplitFields⟩

/-- A concrete string on which the code hash and the specification's
reference hash disagree: after the fourth character the accumulator is
69271553, so the fifth step computes 31·69271553 + 65535 = 2147483678,
which exceeds the signed 32-bit range; the code wraps it (giving
-2147483618, hence hex 7fffffe2) while the reference, wrapping only the
product, keeps 2147483678 (hex 8000001e). -/
def hashCexStr : String :=
  ⟨[Char.ofNat 2000, Char.ofNat 10082, Char.ofNat 24, Char.ofNat 7, Char.ofNat 65535]⟩

/-! ## Data model (`app/lib/db/schema.ts`)

Only the columns read or written by the import pipeline are modelled;
audit-only columns (`createdAt`, `updatedAt`, `notes`) that no embedded
operation inspects are omitted. -/

/-- Model of `IMPORT_BATCH_STATUSES` (schema.ts). -/
inductive BatchStatus where
  | uploading
  | mapping
  | reviewing
  | completed
  | abandoned
  deriving Repr, DecidableEq

/-- Persisted column mapping (`ColumnMapping`, import-batch queries module). -/
structure ColumnMapping where
  date : String
  amount : String
  description : String
  deriving Repr, DecidableEq

/-- Model of `import_batches` row (schema.ts). -/
structure ImportBatch where
  id : Nat
  projectId : Nat
  accountId : Nat
  filename : String
  rowCount : Option Nat
  status : BatchStatus
  r2Key : Option String
  columnMapping : Option ColumnMapping
  completedAt : Option String
  deriving Repr, DecidableEq

/-- Model of `import_batch_rows` row (schema.ts): one staged CSV line. -/
structure ImportBatchRow where
  id : Nat
  batchId : Nat
  rowIndex : Nat
  rawData : List String
  sourceHash : String
  parsedAmount : Option Int
  parsedDate : Option String
  parsedDescription : Option String
  isDuplicate : Bool
  excluded : Bool
  tagIds : Option (List Nat)
  deriving Repr, DecidableEq

/-- Model of `transactions` row (schema.ts), insert shape (`NewTransaction`): the
fields the commit path sets. -/
structure NewTransaction where
  projectId : Nat
  accountId : Nat
  amount : Int
  date : String
  description : String
  sourceHash : Option String
  importBatchId : Option Nat
  deriving Repr, DecidableEq

/-- A stored `transactions` row: insert shape plus the generated id. -/
structure Transaction extends NewTransaction where
  id : Nat
  deriving Repr, DecidableEq

/-- Model of `tags` row (schema.ts). -/
structure Tag where
  id : Nat
  projectId : Nat
  name : String
  deriving Repr, DecidableEq

/-- The relational store: the tables the import pipeline touches, plus
counters modelling id generation for inserted rows. -/
structure Db where
  batches : List ImportBatch
  batchRows : List ImportBatchRow
  transactions : List Transaction
  transactionTags : List (Nat × Nat)
  nextTxnId : Nat
  nextRowId : Nat
  deriving Repr, DecidableEq

/-- The relational store plus the blob store (modelled as its set of keys). -/
structure World where
  db : Db
  blobs : List String
  deriving Repr, DecidableEq

/-! ## Query layer (import-batch and transaction query modules) -/

/-- Apply `f` to every batch with the given id (drizzle
`update ... where eq(importBatches.id, id)`). -/
def updateBatch (batches : List ImportBatch) (id : Nat) (f : ImportBatch → ImportBatch) :
    List ImportBatch :=
  batches.map (fun b => if b.id = id then f b else b)

/-- Model of `importBatchQueries.updateStatus`: set the status and, when a completion
timestamp is supplied, the completion timestamp. -/
def updateStatus (batches : List ImportBatch) (id : Nat) (status : BatchStatus)
    (completedAt : Option String) : List ImportBatch :=
  updateBatch batches id (fun b =>
    { b with
      status
      completedAt := match completedAt with
        | some c => some c
        | none => b.completedAt })

/-- Model of `importBatchQueries.clearR2Key`: null out the blob key. -/
def clearR2Key (batches : List ImportBatch) (id : Nat) : List ImportBatch :=
  updateBatch batches id (fun b => { b with r2Key := none })

/-- Model of `importBatchQueries.updateColumnMapping`: store the mapping and set the
status to `mapping`. -/
def updateColumnMapping (batches : List ImportBatch) (id : Nat) (m : ColumnMapping) :
    List ImportBatch :=
  updateBatch batches id (fun b => { b with columnMapping := some m, status := .mapping })

/-- Model of `importBatchQueries.findByIdAndProject`. -/
def findByIdAndProject (batches : List ImportBatch) (id projectId : Nat) :
    Option ImportBatch :=
  batches.find? (fun b => b.id = id ∧ b.projectId = projectId)

/-- Model of `importBatchRowQueries.getNonExcluded`: the batch's rows with
`excluded = false`. -/
def getNonExcluded (rows : List ImportBatchRow) (batchId : Nat) : List ImportBatchRow :=
  rows.filter (fun r => r.batchId = batchId ∧ r.excluded = false)

/-- Model of `importBatchRowQueries.deleteByBatch`: delete every row of the batch. -/
def deleteByBatch (rows : List ImportBatchRow) (batchId : Nat) : List ImportBatchRow :=
  rows.filter (fun r => ¬r.batchId = batchId)

/-- Model of `importBatchRowQueries.updateExcluded`: set the excluded flag of the row
with the given id. -/
def updateExcluded (rows : List ImportBatchRow) (id : Nat) (excluded : Bool) :
    List ImportBatchRow :=
  rows.map (fun r => if r.id = id then { r with excluded } else r)

/-- Model of `importBatchRowQueries.updateTags`: overwrite the row's pending tag-id
list (stored serialised; modelled as the list itself). -/
def updateTags (rows : List ImportBatchRow) (id : Nat) (tagIds : List Nat) :
    List ImportBatchRow :=
  rows.map (fun r => if r.id = id then { r with tagIds := some tagIds } else r)

/-- Model of `importBatchRowQueries.bulkUpdateTags`: `updateTags` iterated per update,
in order. -/
def bulkUpdateTags (rows : List ImportBatchRow) (updates : List (Nat × List Nat)) :
    List ImportBatchRow :=
  updates.foldl (fun rs u => updateTags rs u.1 u.2) rows

/-- Model of `importBatchRowQueries.createMany`: bulk-insert staging rows (ids are
already assigned by the caller model). -/
def createManyRows (db : Db) (data : List ImportBatchRow) : Db :=
  if data.isEmpty then db
  else
    { db with
      batchRows := db.batchRows ++ data
      nextRowId := db.nextRowId + data.length }

/-- Model of `transactionQueries.checkSourceHashes`: the distinct stored fingerprints
of the project's transactions that occur among `hashes` (a JS `Set`; modelled
as a deduplicated list queried only for membership). -/
def checkSourceHashes (db : Db) (projectId : Nat) (hashes : List String) : List String :=
  if hashes.isEmpty then []
  else
    ((db.transactions.filter (fun t =>
        t.projectId == projectId &&
          match t.sourceHash with
          | some h => hashes.contains h
          | none => false)).filterMap (fun t => t.sourceHash)).dedup

/-- Model of `transactionQueries.createMany`: bulk-insert transactions with generated
sequential ids, then insert the tag joins for every index with a recorded
tag-id list (the source skips an empty `tagInserts` insert; appending the
empty list is the same store). -/
def createMany (db : Db) (data : List NewTransaction)
    (tagIdsByIndex : Nat → Option (List Nat)) : Db :=
  if data.isEmpty then db
  else
    let txns := data.enum.map (fun p => ({ p.2 with id := db.nextTxnId + p.1 } : Transaction))
    let tagInserts := txns.enum.flatMap (fun p =>
      match tagIdsByIndex p.1 with
      | some tIds => tIds.map (fun tagId => (p.2.id, tagId))
      | none => [])
    { db with
      transactions := db.transactions ++ txns
      transactionTags := db.transactionTags ++ tagInserts
      nextTxnId := db.nextTxnId + data.length }

/-! ## Commit action (review.tsx, `action`, case 'commit', lines 113–162)

The route runs: fetch non-excluded rows; reject if none; build transaction
data with fallbacks (`parsedAmount ?? 0`, `parsedDate ?? today`,
`parsedDescription ?? ''`); `transactionQueries.createMany`;
`importBatchRowQueries.deleteByBatch`; `bucket.delete` when a blob key is
recorded (unguarded — a rejection propagates and aborts the request);
`updateStatus(..., 'completed', now)`; `clearR2Key`.  `today` is the commit
date (`new Date().toISOString().split('T')[0]`) and `now` the completion
timestamp, both inputs to the model.  The blob store call is external; the
parameter `blobDeleteFails` selects whether it rejects. -/

/-- Outcome of the commit route: a 404, a user-facing validation error with
the store untouched, an uncaught rejection leaving the store as mutated so
far, or success. -/
inductive CommitResult where
  | notFound
  | userError (msg : String) (w : World)
  | thrown (w : World)
  | ok (w : World)
  deriving Repr, DecidableEq

/-- The final two commit steps shared by both blob-key branches: mark the
batch completed with a timestamp, then clear its blob key. -/
def commitFinish (w : World) (batchId : Nat) (now : String) : CommitResult :=
  let db3 := { w.db with batches := updateStatus w.db.batches batchId .completed (some now) }
  let db4 := { db3 with batches := clearR2Key db3.batches batchId }
  .ok { w with db := db4 }

/-- The commit route action. -/
def commitAction (w : World) (projectId batchId : Nat) (today now : String)
    (blobDeleteFails : Bool) : CommitResult :=
  match findByIdAndProject w.db.batches batchId projectId with
  | none => .notFound
  | some batch =>
    let rows := getNonExcluded w.db.batchRows batchId
    if rows.isEmpty then .userError "No rows to import" w
    else
      let transactionData : List NewTransaction := rows.map (fun row =>
        { projectId
          accountId := batch.accountId
          amount := row.parsedAmount.getD 0
          date := row.parsedDate.getD today
          description := row.parsedDescription.getD ""
          sourceHash := some row.sourceHash
          importBatchId := some batchId })
      let tagIdsByIndex : Nat → Option (List Nat) := fun i =>
        (rows.get? i).bind (fun row =>
          row.tagIds.bind (fun tIds => if tIds.isEmpty then none else some tIds))
      let db1 := createMany w.db transactionData tagIdsByIndex
      let db2 := { db1 with batchRows := deleteByBatch db1.batchRows batchId }
      match batch.r2Key with
      | some key =>
        if blobDeleteFails then .thrown { w with db := db2 }
        else commitFinish { db := db2, blobs := w.blobs.filter (fun k => ¬k = key) } batchId now
      | none => commitFinish { w with db := db2 } batchId now

/-- The world carried by a commit outcome (the input world for a 404, which
mutates nothing). -/
def CommitResult.world (r : CommitResult) (w₀ : World) : World :=
  match r with
  | .notFound => w₀
  | .userError _ w => w
  | .thrown w => w
  | .ok w => w

/-- Whether the commit request completed successfully. -/
def CommitResult.succeeded : CommitResult → Bool
  | .ok _ => true
  | _ => false

/-- The transaction record the commit step builds from the staging row `p.2`
sitting at position `p.1` of the non-excluded list (review.tsx lines
122–130, with the generated id of `transactionQueries.createMany`). -/
def commitTxn (pid accountId bid : Nat) (today : String) (nextTxnId : Nat)
    (p : Nat × ImportBatchRow) : Transaction :=
  { projectId := pid
    accountId
    amount := p.2.parsedAmount.getD 0
    date := p.2.parsedDate.getD today
    description := p.2.parsedDescription.getD ""
    sourceHash := some p.2.sourceHash
    importBatchId := some bid
    id := nextTxnId + p.1 }

/-! ## Concrete worlds for witnesses and counterexamples -/

/-- A batch under review with a recorded blob key. -/
def wBatch : ImportBatch :=
  { id := 1, projectId := 7, accountId := 3, filename := "stmt.csv", rowCount := some 2,
    status := .reviewing, r2Key := some "imports/7/1.csv", columnMapping := none,
    completedAt := none }

/-- A non-excluded staged row with a pending tag. -/
def wRow1 : ImportBatchRow :=
  { id := 21, batchId := 1, rowIndex := 0, rawData := ["2024-01-05", "-42.50", "Coffee Shop"],
    sourceHash := "0abc1234", parsedAmount := some (-4250), parsedDate := some "2024-01-05",
    parsedDescription := some "Coffee Shop", isDuplicate := false, excluded := false,
    tagIds := some [5] }

/-- An excluded staged row of the same batch. -/
def wRow2 : ImportBatchRow :=
  { id := 22, batchId := 1, rowIndex := 1, rawData := ["2024-01-06", "100.00", "Paycheck"],
    sourceHash := "0abc9999", parsedAmount := some 10000, parsedDate := some "2024-01-06",
    parsedDescription := some "Paycheck", isDuplicate := false, excluded := true,
    tagIds := none }

/-- A world holding the batch with one non-excluded and one excluded row. -/
def commitWorld : World :=
  { db := { batches := [wBatch], batchRows := [wRow1, wRow2], transactions := [],
            transactionTags := [], nextTxnId := 1, nextRowId := 23 },
    blobs := ["imports/7/1.csv"] }

/-- The same world with every staged row excluded. -/
def commitWorldAllExcluded : World :=
  { db := { batches := [wBatch], batchRows := [wRow2], transactions := [],
            transactionTags := [], nextTxnId := 1, nextRowId := 23 },
    blobs := ["imports/7/1.csv"] }

/-- The commit world with the batch in status `uploading`. -/
def commitWorldUploading : World :=
  { db := { batches := [{ wBatch with status := .uploading }], batchRows := [wRow1, wRow2],
            transactions := [], transactionTags := [], nextTxnId := 1, nextRowId := 23 },
    blobs := ["imports/7/1.csv"] }

/-! ## Review-screen row actions (review.tsx lines 93–111 with the client
negation of lines 231–240)

The exclude toggle submits `excluded = !row.excluded` for the row's current
value and the server stores it via `updateExcluded`; `toggleExcluded` is
that round trip. -/

/-- One exclude-toggle round trip on the row with the given id. -/
def toggleExcluded (rows : List ImportBatchRow) (id : Nat) : List ImportBatchRow :=
  match rows.find? (fun r => r.id = id) with
  | some r => updateExcluded rows id (!r.excluded)
  | none => rows

/-! ## AI tag-suggestion endpoint (accounts.tsx route module, suggest-tags
action, lines 292–417)

The model call `ai.run` and the JSON extraction/parse of its raw text are
external collaborators (platform `JSON.parse` plus a remote model); they are
modelled as an oracle per 20-row chunk that either fails (the `catch`
branches: request error or unparsable response) or yields the parsed
suggestion list.  Everything after the parse — bounds check, case-insensitive
vocabulary lookup, accumulation, bulk tag application — is embedded from the
source. -/

/-- A request-body row (`RowInput`). -/
structure RowInput where
  id : Nat
  description : String
  amount : Int
  deriving Repr, DecidableEq

/-- One parsed model suggestion (`AiSuggestion`): a 1-based row index and
tag names. -/
structure AiSuggestion where
  index : Int
  tags : List String
  deriving Repr, DecidableEq

/-- One accepted suggestion (`{rowId, tagIds}`). -/
structure TagSuggestion where
  rowId : Nat
  tagIds : List Nat
  deriving Repr, DecidableEq

/-- The `tagNameToId` JS map: keys are lowercased tag names, later entries
overwrite earlier ones, so lookup returns the last tag whose lowercased name
equals the key. -/
def tagNameToId (tags : List Tag) (key : String) : Option Nat :=
  (tags.reverse.find? (fun t => jsToLower t.name = key)).map (fun t => t.id)

/-- The chunking loop `for (let i = 0; i < rows.length; i += 20)` with
`rows.slice(i, i + 20)` per iteration: one slice per multiple of 20 below
the length. -/
def chunks20 (rows : List RowInput) : List (List RowInput) :=
  (List.range ((rows.length + 19) / 20)).map (fun i => (rows.drop (20 * i)).take 20)

/-- The per-chunk suggestion loop (accounts.tsx lines 387–399): convert the
1-based index, drop it if out of the chunk's bounds, look every suggested
name up case-insensitively in the vocabulary, drop unknown names, and keep
the suggestion only when at least one tag id survives. -/
def processChunk (tags : List Tag) (rowBatch : List RowInput) :
    List AiSuggestion → List TagSuggestion
  | [] => []
  | item :: rest =>
    let rowIndex := item.index - 1
    if 0 ≤ rowIndex ∧ rowIndex < (rowBatch.length : Int) then
      match rowBatch.get? rowIndex.toNat with
      | some row =>
        let tIds := item.tags.filterMap (fun tagName => tagNameToId tags (jsToLower tagName))
        if tIds.isEmpty then processChunk tags rowBatch rest
        else ⟨row.id, tIds⟩ :: processChunk tags rowBatch rest
      | none => processChunk tags rowBatch rest
    else processChunk tags rowBatch rest

/-- The suggest-tags action: early-return on an empty vocabulary or empty
row list; otherwise process the 20-row chunks against the oracle, skipping
failed chunks, then apply the accumulated suggestions to the staging rows
via `bulkUpdateTags` (skipped when empty).  Returns the HTTP payload
(always a success) and the staging table afterwards. -/
def suggestTagsAction (tags : List Tag) (stagingRows : List ImportBatchRow)
    (rows : List RowInput)
    (oracle : List RowInput → Except Unit (List AiSuggestion)) :
    Except String (List TagSuggestion) × List ImportBatchRow :=
  if tags.isEmpty then (.ok [], stagingRows)
  else if rows.isEmpty then (.ok [], stagingRows)
  else
    let allSuggestions := (chunks20 rows).flatMap (fun chunk =>
      match oracle chunk with
      | .error _ => []
      | .ok parsed => processChunk tags chunk parsed)
    let stagingRows' :=
      if allSuggestions.isEmpty then stagingRows
      else bulkUpdateTags stagingRows (allSuggestions.map (fun s => (s.rowId, s.tagIds)))
    (.ok allSuggestions, stagingRows')

/-- The suggestion list of an endpoint response (empty for an error
response; the endpoint never produces one). -/
def suggestionsOf (x : Except String (List TagSuggestion)) : List TagSuggestion :=
  match x with
  | .ok l => l
  | .error _ => []

/-! ## Column-mapping action (map.tsx, `action`, lines 116–213)

The route validates the selected columns, persists the column mapping (which
also sets status `mapping`), re-parses the CSV from the blob store, resolves
the selected headers to indices, hashes every row, checks the hashes against
the project's existing transactions, bulk-creates the staging rows, and sets
the batch to `reviewing` with its row count.

`Math.round(parseFloat(s) * 100) || 0` is IEEE-754 floating point; it is
modelled as the oracle parameter `parseCents` applied to the cleaned amount
string, since no claim constrains its numeric value. -/

/-- Model of `amountStr.replace(/[$,]/g, '').trim()`. -/
def cleanAmount (s : String) : String :=
  jsTrim ⟨s.data.filter (fun c => ¬(c = '$' ∨ c = ','))⟩

/-- Outcome of the column-mapping route. -/
inductive MapResult where
  | notFound
  | userError (msg : String) (db : Db)
  | ok (db : Db)
  deriving Repr, DecidableEq

/-- The staging row the mapping action builds for the data row `p.2` at
index `p.1` (map.tsx lines 174–200, with the generated id). -/
def mapActionRow (bid : Nat) (dateIdx amountIdx descIdx : Nat)
    (parseCents : String → Int) (existingHashes : List String)
    (rowHashes : List String) (nextRowId : Nat) (p : Nat × List String) : ImportBatchRow :=
  let sourceHash := rowHashes.getD p.1 ""
  let amountRaw := p.2.getD amountIdx ""
  let amountStr := if amountRaw = "" then "0" else amountRaw
  { id := nextRowId + p.1
    batchId := bid
    rowIndex := p.1
    rawData := p.2
    sourceHash
    parsedAmount := some (parseCents (cleanAmount amountStr))
    parsedDate := some (p.2.getD dateIdx "")
    parsedDescription := some (p.2.getD descIdx "")
    isDuplicate := existingHashes.contains sourceHash
    excluded := false
    tagIds := none }

/-- The column-mapping route action.  `csvContent` is the blob-store read
(`none` when the object is gone). -/
def mapAction (db : Db) (pid bid : Nat)
    (dateColumn amountColumn descriptionColumn : String)
    (csvContent : Option String) (parseCents : String → Int) : MapResult :=
  match findByIdAndProject db.batches bid pid with
  | none => .notFound
  | some batch =>
    match batch.r2Key with
    | none => .notFound
    | some _ =>
      if dateColumn = "" ∨ amountColumn = "" ∨ descriptionColumn = "" then
        .userError "Please map all required columns" db
      else
        let mapping : ColumnMapping := ⟨dateColumn, amountColumn, descriptionColumn⟩
        let db1 := { db with batches := updateColumnMapping db.batches bid mapping }
        match csvContent with
        | none => .userError "CSV file not found" db1
        | some content =>
          let parsed := parseCSV content
          match parsed.headers.findIdx? (fun h => h = dateColumn),
              parsed.headers.findIdx? (fun h => h = amountColumn),
              parsed.headers.findIdx? (fun h => h = descriptionColumn) with
          | some dateIdx, some amountIdx, some descIdx =>
            let rowHashes := parsed.rows.map (fun row => hashString (rowJoin row))
            let existingHashes := checkSourceHashes db1 pid rowHashes
            let mkRow := mapActionRow bid dateIdx amountIdx descIdx parseCents
              existingHashes rowHashes db1.nextRowId
            let db2 := createManyRows db1 (parsed.rows.enum.map mkRow)
            let setReviewing := fun (b : ImportBatch) =>
              { b with status := BatchStatus.reviewing, rowCount := some parsed.rows.length }
            let db3 := { db2 with batches := updateBatch db2.batches bid setReviewing }
            .ok db3
          | _, _, _ => .userError "Invalid column mapping" db1

/-- A two-tag vocabulary for the suggestion witnesses. -/
def c7Tags : List Tag := [⟨5, 7, "Groceries"⟩, ⟨6, 7, "Dining"⟩]

/-- A one-row request body for the suggestion witnesses. -/
def c7Rows : List RowInput := [⟨21, "Whole Foods Market", -4250⟩]

/-- The staging table the suggestion witnesses run against. -/
def c7Staging : List ImportBatchRow := [wRow1, wRow2]

/-- An oracle whose model response names one vocabulary tag and one
hallucinated tag. -/
def c7Oracle : List RowInput → Except Unit (List AiSuggestion) :=
  fun _ => .ok [⟨1, ["groceries", "rent"]⟩]

/-- An oracle for which every chunk fails. -/
def failOracle : List RowInput → Except Unit (List AiSuggestion) :=
  fun _ => .error ()

/-- A previously committed transaction storing the fingerprint of the CSV
row `2024-01-05,-42.50,Coffee Shop`. -/
def mapTxn : Transaction :=
  { projectId := 7, accountId := 3, amount := -4250, date := "2024-01-05",
    description := "Coffee Shop",
    sourceHash := some (hashString (rowJoin ["2024-01-05", "-42.50", "Coffee Shop"])),
    importBatchId := none, id := 4 }

/-- The store the mapping witness runs against. -/
def mapDb : Db :=
  { batches := [wBatch], batchRows := [], transactions := [mapTxn],
    transactionTags := [], nextTxnId := 5, nextRowId := 31 }

/-- The CSV text of the mapping witness: a header line and two data rows,
the first byte-identical to `mapTxn`'s original row. -/
def mapContent : String :=
  "Date,Amount,Description\n2024-01-05,-42.50,Coffee Shop\n2024-01-06,100.00,Paycheck"

/-! ## Hash lemmas -/

/-- The code's hash step equals multiply-add followed by a single 32-bit
wrap. -/
theorem jsHashStep_eq (h : Int) (c : Nat) : jsHashStep h c = wrap32 (31 * h + c) := by
  unfold jsHashStep wrap32
  omega

/-- The code scanner run from an arbitrary intermediate state agrees with the
specification's fold once the already-emitted fields are prepended. -/
theorem parseLineAux_eq_foldl (cs : List Char) :
    ∀ (fields : List String) (current : List Char) (inQ : Bool),
      (cs.foldl specFieldStep (fields, current, inQ)).1
          ++ [(⟨trimChars (cs.foldl specFieldStep (fields, current, inQ)).2.1⟩ : String)]
        = fields ++ parseLineAux cs current inQ := by
  induction cs with
  | nil =>
    intro fields current inQ
    simp [parseLineAux]
  | cons c rest ih =>
    intro fields current inQ
    simp only [List.foldl_cons, parseLineAux, specFieldStep]
    by_cases hq : c = '"'
    · simp only [hq, if_pos rfl]
      exact ih fields current (!inQ)
    · by_cases hc : c = ',' ∧ inQ = false
      · simp only [if_neg hq, if_pos hc]
        rw [ih (fields ++ [(⟨trimChars current⟩ : String)]) [] inQ]
        simp
      · simp only [if_neg hq, if_neg hc]
        exact ih fields (current ++ [c]) inQ

/-- The line splitter transcribed from the code equals the one transcribed
from the specification's words. -/
theorem specSplitFields_eq_parseLine (l : String) : specSplitFields l = parseLine l := by
  unfold specSplitFields parseLine
  simpa using parseLineAux_eq_foldl l.data [] [] false

set_option maxRecDepth 4000 in
/-- C4, counterexample: the row hasher is not equal to the claim's reference
definition (which wraps only the product, not the subsequent addition of the
character code).  On the five-character string with code points 2000, 10082,
24, 7, 65535 the code yields "7fffffe2" while the reference yields
"8000001e". -/
theorem c4_hash_not_reference : hashString hashCexStr ≠ refHashString hashCexStr := by
  decide

/-- C4 (amended): the row hasher equals the reference definition in which the
32-bit wrap is applied to the whole multiply-and-add step (`wrap32 (31*h + c)`
per character), and the fingerprint is a pure function of the row content:
identical row contents hash identically whenever computed. -/
theorem c4_hash_amended :
    (∀ s : String, hashString s = refHashStringWrapAfterAdd s) ∧
    (∀ r₁ r₂ : List String, r₁ = r₂ → hashString (rowJoin r₁) = hashString (rowJoin r₂)) := by
  constructor
  · intro s
    unfold hashString refHashStringWrapAfterAdd jsHash
    have hstep : ∀ (h : Int) (c : Char), jsHashStep h c.toNat = refHashStepWrapAfterAdd h c.toNat := by
      intro h c
      rw [jsHashStep_eq]
      rfl
    rw [List.foldl_ext (fun h c => jsHashStep h c.toNat)
      (fun h c => refHashStepWrapAfterAdd h c.toNat) 0 (fun h c _ => hstep h c)]
  · intro r₁ r₂ h
    rw [h]

/-- C4 witness: the amended theorem applied at concrete inputs. -/
theorem c4_hash_amended_witness :
    hashString "a,b \"x\"" = refHashStringWrapAfterAdd "a,b \"x\"" ∧
    (["2024-01-05", "-42.50", "Coffee Shop"] = ["2024-01-05", "-42.50", "Coffee Shop"] ∧
      hashString (rowJoin ["2024-01-05", "-42.50", "Coffee Shop"]) =
        hashString (rowJoin ["2024-01-05", "-42.50", "Coffee Shop"])) :=
  ⟨c4_hash_amended.1 "a,b \"x\"", rfl,
    c4_hash_amended.2 ["2024-01-05", "-42.50", "Coffee Shop"]
      ["2024-01-05", "-42.50", "Coffee Shop"] rfl⟩

/-- C6: for every input text, the CSV parser yields empty headers and rows on
a blank file (every line whitespace-only), and in general it splits the text
on newlines, discards blank lines, takes the first non-blank line as the
header row and the rest as data rows, splitting each line by the quote-toggle
scan with commas as separators only outside quotes, quotes removed, and every
field trimmed — i.e. it equals the parser transcribed from the
specification's words. -/
theorem c6_parseCSV (content : String) :
    parseCSV content = parseCSVSpec content ∧
    ((∀ cs ∈ splitOnChar '\n' content.data, trimChars cs = []) →
      parseCSV content = ⟨[], []⟩) := by
  constructor
  · unfold parseCSV parseCSVSpec
    cases ((splitOnChar '\n' content.data).map
        (fun cs => (⟨cs⟩ : String))).filter (fun l => !(jsTrim l == "")) with
    | nil => rfl
    | cons l ls => simp [specSplitFields_eq_parseLine]
  · intro hblank
    unfold parseCSV
    have hfilter : ((splitOnChar '\n' content.data).map
        (fun cs => (⟨cs⟩ : String))).filter (fun l => !(jsTrim l == "")) = [] := by
      rw [List.filter_eq_nil_iff]
      intro a ha
      rw [List.mem_map] at ha
      obtain ⟨cs, hcs, rfl⟩ := ha
      simp [jsTrim, hblank cs hcs]
    rw [hfilter]

/-- C6 witness: the theorem applied at a concrete CSV text, with the
blank-file hypothesis discharged on a whitespace-only file. -/
theorem c6_parseCSV_witness :
    parseCSV "Date,Amount\n1,2" = parseCSVSpec "Date,Amount\n1,2" ∧
    ((∀ cs ∈ splitOnChar '\n' ("  \n\t " : String).data, trimChars cs = []) ∧
      parseCSV "  \n\t " = ⟨[], []⟩) :=
  ⟨(c6_parseCSV "Date,Amount\n1,2").1,
    by decide, (c6_parseCSV "  \n\t ").2 (by decide)⟩

/-! ## Commit lemmas -/

/-- Enumerating a mapped list equals enumerating first and mapping the payload. -/
theorem enumFrom_map_payload (f : α → β) :
    ∀ (n : Nat) (l : List α),
      (l.map f).enumFrom n = (l.enumFrom n).map (fun p => (p.1, f p.2)) := by
  intro n l
  induction l generalizing n with
  | nil => rfl
  | cons a l ih => simp [List.enumFrom_cons, ih]

/-- Enumerating from zero commutes with mapping the payload likewise. -/
theorem enum_map_payload (f : α → β) (l : List α) :
    (l.map f).enum = l.enum.map (fun p => (p.1, f p.2)) :=
  enumFrom_map_payload f 0 l

/-- Inserting transactions never touches the staging rows. -/
theorem createMany_batchRows (db : Db) (data : List NewTransaction) (m : Nat → Option (List Nat)) :
    (createMany db data m).batchRows = db.batchRows := by
  unfold createMany
  split <;> rfl

/-- Inserting transactions never touches the batches. -/
theorem createMany_batches (db : Db) (data : List NewTransaction) (m : Nat → Option (List Nat)) :
    (createMany db data m).batches = db.batches := by
  unfold createMany
  split <;> rfl

/-- The transactions inserted by a non-trivial `createMany`. -/
theorem createMany_transactions (db : Db) (data : List NewTransaction)
    (m : Nat → Option (List Nat)) (h : data ≠ []) :
    (createMany db data m).transactions =
      db.transactions ++
        data.enum.map (fun p => ({ p.2 with id := db.nextTxnId + p.1 } : Transaction)) := by
  unfold createMany
  rw [if_neg (by simpa using h)]

/-- Looking a batch up after an id-and-project-preserving in-place update. -/
theorem findByIdAndProject_updateBatch (batches : List ImportBatch) (bid pid : Nat)
    (f : ImportBatch → ImportBatch)
    (hid : ∀ b, (f b).id = b.id) (hpid : ∀ b, (f b).projectId = b.projectId) :
    findByIdAndProject (updateBatch batches bid f) bid pid =
      (findByIdAndProject batches bid pid).map f := by
  induction batches with
  | nil => rfl
  | cons b bs ih =>
    unfold findByIdAndProject updateBatch at ih ⊢
    by_cases h : b.id = bid
    · by_cases hp : b.projectId = pid
      · rw [List.map_cons, if_pos h, List.find?_cons_of_pos, List.find?_cons_of_pos]
        · simp [h]
        · simp [h, hp]
        · simp [hid, hpid, h, hp]
      · rw [List.map_cons, if_pos h, List.find?_cons_of_neg, List.find?_cons_of_neg]
        · exact ih
        · simp [hp]
        · simp [hid, hpid, hp]
    · rw [List.map_cons, if_neg h, List.find?_cons_of_neg, List.find?_cons_of_neg]
      · exact ih
      · simp [h]
      · simp [h]

/-- Batch lookup after `updateStatus`. -/
theorem findByIdAndProject_updateStatus (batches : List ImportBatch) (bid pid : Nat)
    (st : BatchStatus) (c : Option String) :
    findByIdAndProject (updateStatus batches bid st c) bid pid =
      (findByIdAndProject batches bid pid).map (fun b =>
        { b with
          status := st
          completedAt := match c with
            | some x => some x
            | none => b.completedAt }) := by
  unfold updateStatus
  exact findByIdAndProject_updateBatch _ _ _ _ (fun _ => rfl) (fun _ => rfl)

/-- Batch lookup after `clearR2Key`. -/
theorem findByIdAndProject_clearR2Key (batches : List ImportBatch) (bid pid : Nat) :
    findByIdAndProject (clearR2Key batches bid) bid pid =
      (findByIdAndProject batches bid pid).map (fun b => { b with r2Key := none }) := by
  unfold clearR2Key
  exact findByIdAndProject_updateBatch _ _ _ _ (fun _ => rfl) (fun _ => rfl)

/-- Full characterisation of a commit in which the blob delete does not fail:
success, the appended transactions, the purged staging rows, and the
completed batch with a cleared blob key. -/
theorem commitAction_ok_spec (w : World) (pid bid : Nat) (today now : String)
    (batch : ImportBatch)
    (hb : findByIdAndProject w.db.batches bid pid = some batch)
    (hrows : getNonExcluded w.db.batchRows bid ≠ []) :
    ∃ w', commitAction w pid bid today now false = .ok w' ∧
      w'.db.transactions = w.db.transactions ++
        (getNonExcluded w.db.batchRows bid).enum.map
          (commitTxn pid batch.accountId bid today w.db.nextTxnId) ∧
      w'.db.batchRows = w.db.batchRows.filter (fun r => ¬r.batchId = bid) ∧
      findByIdAndProject w'.db.batches bid pid =
        some { batch with status := .completed, completedAt := some now, r2Key := none } := by
  have hne : (getNonExcluded w.db.batchRows bid).isEmpty = false := by
    cases h : getNonExcluded w.db.batchRows bid with
    | nil => exact absurd h hrows
    | cons a l => rfl
  have hfind : ∀ (db2 : Db),
      findByIdAndProject
          (clearR2Key (updateStatus w.db.batches bid .completed (some now)) bid) bid pid =
        some { batch with status := .completed, completedAt := some now, r2Key := none } := by
    intro _
    rw [findByIdAndProject_clearR2Key, findByIdAndProject_updateStatus, hb]
    rfl
  have htx : (createMany w.db
        ((getNonExcluded w.db.batchRows bid).map (fun row =>
          ({ projectId := pid
             accountId := batch.accountId
             amount := row.parsedAmount.getD 0
             date := row.parsedDate.getD today
             description := row.parsedDescription.getD ""
             sourceHash := some row.sourceHash
             importBatchId := some bid } : NewTransaction)))
        (fun i => ((getNonExcluded w.db.batchRows bid).get? i).bind (fun row =>
          row.tagIds.bind (fun tIds => if tIds.isEmpty then none else some tIds)))).transactions =
      w.db.transactions ++
        (getNonExcluded w.db.batchRows bid).enum.map
          (commitTxn pid batch.accountId bid today w.db.nextTxnId) := by
    rw [createMany_transactions _ _ _ (by simpa using hrows), enum_map_payload, List.map_map]
    rfl
  unfold commitAction
  rw [hb]
  simp only [hne, Bool.false_eq_true, if_false]
  cases hk : batch.r2Key with
  | none =>
    refine ⟨_, rfl, ?_, ?_, ?_⟩
    · simpa [commitFinish] using htx
    · simp [commitFinish, deleteByBatch, createMany_batchRows]
    · simpa [commitFinish, createMany_batches] using hfind w.db
  | some key =>
    refine ⟨_, rfl, ?_, ?_, ?_⟩
    · simpa [commitFinish] using htx
    · simp [commitFinish, deleteByBatch, createMany_batchRows]
    · simpa [commitFinish, createMany_batches] using hfind w.db

/-- Characterisation of a commit whose blob delete rejects: the request is
aborted with the transactions already inserted and the staging rows already
deleted, while the batches table (status, blob key, completion timestamp)
and the blob store are untouched. -/
theorem commitAction_thrown_spec (w : World) (pid bid : Nat) (today now : String)
    (batch : ImportBatch) (key : String)
    (hb : findByIdAndProject w.db.batches bid pid = some batch)
    (hk : batch.r2Key = some key)
    (hrows : getNonExcluded w.db.batchRows bid ≠ []) :
    ∃ w', commitAction w pid bid today now true = .thrown w' ∧
      w'.db.batches = w.db.batches ∧
      w'.blobs = w.blobs ∧
      w'.db.transactions = w.db.transactions ++
        (getNonExcluded w.db.batchRows bid).enum.map
          (commitTxn pid batch.accountId bid today w.db.nextTxnId) ∧
      w'.db.batchRows = w.db.batchRows.filter (fun r => ¬r.batchId = bid) := by
  have hne : (getNonExcluded w.db.batchRows bid).isEmpty = false := by
    cases h : getNonExcluded w.db.batchRows bid with
    | nil => exact absurd h hrows
    | cons a l => rfl
  have htx : (createMany w.db
        ((getNonExcluded w.db.batchRows bid).map (fun row =>
          ({ projectId := pid
             accountId := batch.accountId
             amount := row.parsedAmount.getD 0
             date := row.parsedDate.getD today
             description := row.parsedDescription.getD ""
             sourceHash := some row.sourceHash
             importBatchId := some bid } : NewTransaction)))
        (fun i => ((getNonExcluded w.db.batchRows bid).get? i).bind (fun row =>
          row.tagIds.bind (fun tIds => if tIds.isEmpty then none else some tIds)))).transactions =
      w.db.transactions ++
        (getNonExcluded w.db.batchRows bid).enum.map
          (commitTxn pid batch.accountId bid today w.db.nextTxnId) := by
    rw [createMany_transactions _ _ _ (by simpa using hrows), enum_map_payload, List.map_map]
    rfl
  unfold commitAction
  rw [hb]
  simp only [hne, Bool.false_eq_true, if_false]
  rw [hk]
  refine ⟨_, rfl, ?_, rfl, ?_, ?_⟩
  · simp [createMany_batches]
  · exact htx
  · simp [deleteByBatch, createMany_batchRows]

/-- C1: for every batch whose staging store holds K ≥ 1 non-excluded rows,
commit creates exactly K transactions — each carrying the row's parsed
amount (0 when absent), parsed date (the commit date when absent), parsed
description, fingerprint, and a back-reference to the batch (`commitTxn`) —
deletes all staging rows of the batch including excluded ones (their count
becomes 0), sets the batch status to `completed` with a completion
timestamp, and clears its blob key. -/
theorem c1_commit (w : World) (pid bid : Nat) (today now : String) (batch : ImportBatch)
    (hb : findByIdAndProject w.db.batches bid pid = some batch)
    (hrows : getNonExcluded w.db.batchRows bid ≠ []) :
    ∃ w', commitAction w pid bid today now false = .ok w' ∧
      w'.db.transactions.length =
        w.db.transactions.length + (getNonExcluded w.db.batchRows bid).length ∧
      w'.db.transactions = w.db.transactions ++
        (getNonExcluded w.db.batchRows bid).enum.map
          (commitTxn pid batch.accountId bid today w.db.nextTxnId) ∧
      (w'.db.batchRows.filter (fun r => r.batchId = bid)).length = 0 ∧
      findByIdAndProject w'.db.batches bid pid =
        some { batch with status := .completed, completedAt := some now, r2Key := none } := by
  obtain ⟨w', h1, h2, h3, h4⟩ := commitAction_ok_spec w pid bid today now batch hb hrows
  refine ⟨w', h1, ?_, h2, ?_, h4⟩
  · rw [h2]
    simp
  · rw [h3, List.filter_filter]
    have : ∀ r : ImportBatchRow,
        (decide (r.batchId = bid) && decide (¬r.batchId = bid)) = false := by
      intro r
      by_cases h : r.batchId = bid <;> simp [h]
    simp [this]

/-- C1 witness: committing `commitWorld` (one non-excluded row, one excluded
row) succeeds with the claimed effects. -/
theorem c1_commit_witness :
    findByIdAndProject commitWorld.db.batches 1 7 = some wBatch ∧
    getNonExcluded commitWorld.db.batchRows 1 ≠ [] ∧
    (∃ w', commitAction commitWorld 7 1 "2024-06-01" "2024-06-01T00:00:00Z" false = .ok w' ∧
      w'.db.transactions.length =
        commitWorld.db.transactions.length +
          (getNonExcluded commitWorld.db.batchRows 1).length ∧
      w'.db.transactions = commitWorld.db.transactions ++
        (getNonExcluded commitWorld.db.batchRows 1).enum.map
          (commitTxn 7 wBatch.accountId 1 "2024-06-01" commitWorld.db.nextTxnId) ∧
      (w'.db.batchRows.filter (fun r => r.batchId = 1)).length = 0 ∧
      findByIdAndProject w'.db.batches 1 7 =
        some { wBatch with
          status := .completed, completedAt := some "2024-06-01T00:00:00Z", r2Key := none }) :=
  ⟨by decide, by decide,
    c1_commit commitWorld 7 1 "2024-06-01" "2024-06-01T00:00:00Z" wBatch
      (by decide) (by decide)⟩

/-- C2: for every batch with zero non-excluded staging rows, commit is
rejected with the user-facing message "No rows to import" and the returned
world is the input world unchanged: no transaction created, no staging row
deleted, batch status, blob key and completion timestamp untouched. -/
theorem c2_commit_no_rows (w : World) (pid bid : Nat) (today now : String)
    (blobDeleteFails : Bool) (batch : ImportBatch)
    (hb : findByIdAndProject w.db.batches bid pid = some batch)
    (hrows : getNonExcluded w.db.batchRows bid = []) :
    commitAction w pid bid today now blobDeleteFails = .userError "No rows to import" w := by
  unfold commitAction
  rw [hb]
  simp [hrows]

/-- C2 witness: committing the all-excluded world is rejected with the input
world returned unchanged. -/
theorem c2_commit_no_rows_witness :
    findByIdAndProject commitWorldAllExcluded.db.batches 1 7 = some wBatch ∧
    getNonExcluded commitWorldAllExcluded.db.batchRows 1 = [] ∧
    commitAction commitWorldAllExcluded 7 1 "2024-06-01" "2024-06-01T00:00:00Z" false =
      .userError "No rows to import" commitWorldAllExcluded :=
  ⟨by decide, by decide,
    c2_commit_no_rows commitWorldAllExcluded 7 1 "2024-06-01" "2024-06-01T00:00:00Z" false
      wBatch (by decide) (by decide)⟩

/-- C5, counterexample: on a batch with one non-excluded row and a recorded
blob key, a failing blob delete makes the commit request abort: the batch
is left in status `reviewing` with its blob key still recorded — not
`completed` with the key cleared as the claim states. -/
theorem c5_blob_failure_cex :
    (commitAction commitWorld 7 1 "2024-06-01" "2024-06-01T00:00:00Z" true).succeeded = false ∧
    ((commitAction commitWorld 7 1 "2024-06-01" "2024-06-01T00:00:00Z" true).world
        commitWorld).db.batches.map (fun b => (b.status, b.r2Key)) =
      [(BatchStatus.reviewing, some "imports/7/1.csv")] := by
  decide

/-- C5 (amended): the blob delete during commit is not guarded: for every
batch with at least one non-excluded staging row and a recorded blob key, a
failure of the blob-store delete aborts the remaining commit steps after the
transactions are inserted and the staging rows deleted — the batch keeps its
previous status and blob key (it is not marked `completed`), and the blob
store is unchanged. -/
theorem c5_blob_failure_aborts (w : World) (pid bid : Nat) (today now : String)
    (batch : ImportBatch) (key : String)
    (hb : findByIdAndProject w.db.batches bid pid = some batch)
    (hk : batch.r2Key = some key)
    (hrows : getNonExcluded w.db.batchRows bid ≠ []) :
    ∃ w', commitAction w pid bid today now true = .thrown w' ∧
      w'.db.batches = w.db.batches ∧
      w'.blobs = w.blobs ∧
      w'.db.transactions = w.db.transactions ++
        (getNonExcluded w.db.batchRows bid).enum.map
          (commitTxn pid batch.accountId bid today w.db.nextTxnId) ∧
      w'.db.batchRows = w.db.batchRows.filter (fun r => ¬r.batchId = bid) :=
  commitAction_thrown_spec w pid bid today now batch key hb hk hrows

/-- C5 witness: the amended theorem at the concrete commit world. -/
theorem c5_blob_failure_aborts_witness :
    findByIdAndProject commitWorld.db.batches 1 7 = some wBatch ∧
    wBatch.r2Key = some "imports/7/1.csv" ∧
    getNonExcluded commitWorld.db.batchRows 1 ≠ [] ∧
    (∃ w', commitAction commitWorld 7 1 "2024-06-01" "2024-06-01T00:00:00Z" true = .thrown w' ∧
      w'.db.batches = commitWorld.db.batches ∧
      w'.blobs = commitWorld.blobs ∧
      w'.db.transactions = commitWorld.db.transactions ++
        (getNonExcluded commitWorld.db.batchRows 1).enum.map
          (commitTxn 7 wBatch.accountId 1 "2024-06-01" commitWorld.db.nextTxnId) ∧
      w'.db.batchRows = commitWorld.db.batchRows.filter (fun r => ¬r.batchId = 1)) :=
  ⟨by decide, by decide, by decide,
    c5_blob_failure_aborts commitWorld 7 1 "2024-06-01" "2024-06-01T00:00:00Z" wBatch
      "imports/7/1.csv" (by decide) (by decide) (by decide)⟩

/-- C10: commit never checks the batch's status: for a batch in any status
`s` (including `uploading`, `mapping`, `completed`, `abandoned`) with at
least one non-excluded staging row, commit proceeds and overwrites the
status to `completed`. -/
theorem c10_commit_ignores_status (w : World) (pid bid : Nat) (today now : String)
    (batch : ImportBatch) (s : BatchStatus)
    (hb : findByIdAndProject w.db.batches bid pid = some batch)
    (hs : batch.status = s)
    (hrows : getNonExcluded w.db.batchRows bid ≠ []) :
    ∃ w', commitAction w pid bid today now false = .ok w' ∧
      findByIdAndProject w'.db.batches bid pid =
        some { batch with status := .completed, completedAt := some now, r2Key := none } := by
  obtain ⟨w', h1, _, _, h4⟩ := commitAction_ok_spec w pid bid today now batch hb hrows
  exact ⟨w', h1, h4⟩

/-- Updating the excluded flag is the identity when no row has the id. -/
theorem updateExcluded_of_not_mem (rows : List ImportBatchRow) (id : Nat) (v : Bool)
    (h : ∀ r ∈ rows, r.id ≠ id) : updateExcluded rows id v = rows := by
  induction rows with
  | nil => rfl
  | cons r rs ih =>
    show (if r.id = id then _ else r) :: updateExcluded rs id v = r :: rs
    rw [if_neg (h r (by simp)), ih (fun x hx => h x (by simp [hx]))]

/-- Setting the found row's excluded flag to its current value changes
nothing, given unique row ids. -/
theorem updateExcluded_found_self (rows : List ImportBatchRow) (id : Nat)
    (r0 : ImportBatchRow) (hnd : (rows.map (fun r => r.id)).Nodup)
    (hf : rows.find? (fun r => r.id = id) = some r0) :
    updateExcluded rows id r0.excluded = rows := by
  induction rows with
  | nil => exact absurd hf (by simp)
  | cons r rs ih =>
    rw [List.map_cons, List.nodup_cons] at hnd
    by_cases h : r.id = id
    · rw [List.find?_cons_of_pos _ (by simpa using h)] at hf
      injection hf with hf
      subst hf
      show (if r.id = id then { r with excluded := r.excluded } else r) ::
        updateExcluded rs id r.excluded = r :: rs
      rw [if_pos h, updateExcluded_of_not_mem rs id r.excluded]
      intro x hx hxid
      apply hnd.1
      rw [h, ← hxid]
      exact List.mem_map_of_mem (fun r => r.id) hx
    · rw [List.find?_cons_of_neg _ (by simpa using h)] at hf
      show (if r.id = id then _ else r) :: updateExcluded rs id r0.excluded = r :: rs
      rw [if_neg h, ih hnd.2 hf]

/-- Two `updateExcluded` on the same id collapse to the second. -/
theorem updateExcluded_updateExcluded (rows : List ImportBatchRow) (id : Nat) (v w : Bool) :
    updateExcluded (updateExcluded rows id v) id w = updateExcluded rows id w := by
  unfold updateExcluded
  rw [List.map_map]
  apply List.map_congr_left
  intro r _
  by_cases h : r.id = id <;> simp [h]

/-- Row lookup after `updateExcluded`. -/
theorem find?_updateExcluded (rows : List ImportBatchRow) (id : Nat) (v : Bool) :
    (updateExcluded rows id v).find? (fun r => r.id = id) =
      (rows.find? (fun r => r.id = id)).map
        (fun r => if r.id = id then { r with excluded := v } else r) := by
  induction rows with
  | nil => rfl
  | cons r rs ih =>
    by_cases h : r.id = id
    · show ((if r.id = id then _ else r) :: updateExcluded rs id v).find? _ = _
      rw [if_pos h, List.find?_cons_of_pos _ (by simpa using h),
        List.find?_cons_of_pos _ (by simpa using h)]
      simp [h]
    · show ((if r.id = id then _ else r) :: updateExcluded rs id v).find? _ = _
      rw [if_neg h, List.find?_cons_of_neg _ (by simpa using h),
        List.find?_cons_of_neg _ (by simpa using h)]
      exact ih

/-- C9: toggling a row's excluded flag twice restores it (given the table's
unique ids), and replacing a row's tag list twice with the same list equals
replacing it once. -/
theorem c9_toggle_and_tags_idempotent (rows : List ImportBatchRow) (id : Nat)
    (tagIds : List Nat) (hnd : (rows.map (fun r => r.id)).Nodup) :
    toggleExcluded (toggleExcluded rows id) id = rows ∧
    updateTags (updateTags rows id tagIds) id tagIds = updateTags rows id tagIds := by
  constructor
  · unfold toggleExcluded
    cases hf : rows.find? (fun r => r.id = id) with
    | none => rw [hf]
    | some r0 =>
      have hr0 : r0.id = id := by simpa using List.find?_some hf
      rw [find?_updateExcluded, hf]
      simp only [Option.map_some', if_pos hr0]
      rw [updateExcluded_updateExcluded, Bool.not_not]
      exact updateExcluded_found_self rows id r0 hnd hf
  · unfold updateTags
    rw [List.map_map]
    apply List.map_congr_left
    intro r _
    by_cases h : r.id = id <;> simp [h]

/-- C9 witness: the idempotence laws on a concrete two-row table. -/
theorem c9_toggle_and_tags_idempotent_witness :
    ([wRow1, wRow2].map (fun r => r.id)).Nodup ∧
    (toggleExcluded (toggleExcluded [wRow1, wRow2] 21) 21 = [wRow1, wRow2] ∧
      updateTags (updateTags [wRow1, wRow2] 21 [4, 5]) 21 [4, 5] =
        updateTags [wRow1, wRow2] 21 [4, 5]) :=
  ⟨by decide, c9_toggle_and_tags_idempotent [wRow1, wRow2] 21 [4, 5] (by decide)⟩

/-! ## Suggest-tags lemmas -/

/-- Every chunk produced by the chunking loop has at most 20 rows. -/
theorem chunks20_length_le (l : List RowInput) : ∀ c ∈ chunks20 l, c.length ≤ 20 := by
  intro c hc
  obtain ⟨i, _, hi⟩ := List.mem_map.mp hc
  rw [← hi, List.length_take]
  omega

/-- A successful vocabulary lookup returns the id of a vocabulary tag. -/
theorem tagNameToId_mem (tags : List Tag) (key : String) (tid : Nat)
    (h : tagNameToId tags key = some tid) : ∃ t ∈ tags, t.id = tid := by
  unfold tagNameToId at h
  cases hf : tags.reverse.find? (fun t => jsToLower t.name = key) with
  | none => rw [hf] at h; exact absurd h (by simp)
  | some t =>
    rw [hf] at h
    refine ⟨t, ?_, by simpa using h⟩
    exact List.mem_reverse.mp (List.mem_of_find?_eq_some hf)

/-- Every suggestion the per-chunk loop keeps refers to a row of the chunk
and only to vocabulary tag ids. -/
theorem processChunk_sound (tags : List Tag) (rowBatch : List RowInput)
    (parsed : List AiSuggestion) :
    ∀ s ∈ processChunk tags rowBatch parsed,
      (∀ tid ∈ s.tagIds, ∃ t ∈ tags, t.id = tid) ∧
      ∃ r ∈ rowBatch, r.id = s.rowId := by
  induction parsed with
  | nil => intro s hs; exact absurd hs (by simp [processChunk])
  | cons item rest ih =>
    intro s hs
    rw [processChunk] at hs
    by_cases hb : 0 ≤ item.index - 1 ∧ item.index - 1 < (rowBatch.length : Int)
    · rw [if_pos hb] at hs
      cases hrow : rowBatch.get? (item.index - 1).toNat with
      | none => rw [hrow] at hs; exact ih s hs
      | some row =>
        rw [hrow] at hs
        simp only at hs
        by_cases he : (item.tags.filterMap
              (fun tagName => tagNameToId tags (jsToLower tagName))).isEmpty = true
        · rw [if_pos he] at hs; exact ih s hs
        · rw [if_neg he] at hs
          rcases List.mem_cons.mp hs with hs | hs
          · subst hs
            constructor
            · intro tid htid
              obtain ⟨name, _, hname⟩ := List.mem_filterMap.mp htid
              exact tagNameToId_mem tags (jsToLower name) tid hname
            · exact ⟨row, List.get?_mem hrow, rfl⟩
          · exact ih s hs
    · rw [if_neg hb] at hs; exact ih s hs

/-- The rows `bulkUpdateTags` produces: each is either an input row or an
input row with its tag list overwritten by one of the updates. -/
theorem bulkUpdateTags_shape (updates : List (Nat × List Nat)) :
    ∀ (rows0 : List ImportBatchRow), ∀ r' ∈ bulkUpdateTags rows0 updates,
      r' ∈ rows0 ∨ ∃ r ∈ rows0, ∃ u ∈ updates, r' = { r with tagIds := some u.2 } := by
  induction updates with
  | nil => intro rows0 r' h; exact Or.inl h
  | cons u us ih =>
    intro rows0 r' h
    have hstep : ∀ x ∈ updateTags rows0 u.1 u.2,
        x ∈ rows0 ∨ ∃ r ∈ rows0, x = { r with tagIds := some u.2 } := by
      intro x hx
      obtain ⟨r, hr, hrx⟩ := List.mem_map.mp hx
      by_cases hid : r.id = u.1
      · exact Or.inr ⟨r, hr, by rw [← hrx, if_pos hid]⟩
      · refine Or.inl ?_
        rw [if_neg hid] at hrx
        exact hrx ▸ hr
    rcases ih (updateTags rows0 u.1 u.2) r' h with hmem | ⟨r, hr, u', hu', hr'⟩
    · rcases hstep r' hmem with h1 | ⟨r, hr, hr'⟩
      · exact Or.inl h1
      · exact Or.inr ⟨r, hr, u, by simp, hr'⟩
    · rcases hstep r hr with h1 | ⟨r0, hr0, hr0'⟩
      · exact Or.inr ⟨r, h1, u', by simp [hu'], hr'⟩
      · refine Or.inr ⟨r0, hr0, u', by simp [hu'], ?_⟩
        rw [hr', hr0']

/-- C7: for every model behaviour and vocabulary, the tag-suggestion
endpoint processes chunks of at most 20 rows; every suggestion it returns
carries only ids of vocabulary tags (names matched case-insensitively) and
refers to a row of its chunk (out-of-bounds indices are discarded); and
every staging row it touches is overwritten with one of those returned
suggestions' tag lists. -/
theorem c7_suggest_tags (tags : List Tag) (stagingRows : List ImportBatchRow)
    (rows : List RowInput) (oracle : List RowInput → Except Unit (List AiSuggestion)) :
    ∃ sgs rows',
      suggestTagsAction tags stagingRows rows oracle = (.ok sgs, rows') ∧
      (∀ chunk ∈ chunks20 rows, chunk.length ≤ 20) ∧
      (∀ s ∈ sgs, (∀ tid ∈ s.tagIds, ∃ t ∈ tags, t.id = tid) ∧
        ∃ chunk ∈ chunks20 rows, ∃ r ∈ chunk, r.id = s.rowId) ∧
      (∀ r' ∈ rows', r' ∈ stagingRows ∨
        ∃ r ∈ stagingRows, ∃ s ∈ sgs, r' = { r with tagIds := some s.tagIds }) := by
  unfold suggestTagsAction
  by_cases ht : tags.isEmpty = true
  · rw [if_pos ht]
    exact ⟨[], stagingRows, rfl, chunks20_length_le rows,
      fun s hs => absurd hs (by simp), fun r' hr' => Or.inl hr'⟩
  · rw [if_neg ht]
    by_cases hr : rows.isEmpty = true
    · rw [if_pos hr]
      exact ⟨[], stagingRows, rfl, chunks20_length_le rows,
        fun s hs => absurd hs (by simp), fun r' hr' => Or.inl hr'⟩
    · rw [if_neg hr]
      simp only
      refine ⟨_, _, rfl, chunks20_length_le rows, ?_, ?_⟩
      · intro s hs
        obtain ⟨chunk, hchunk, hsc⟩ := List.mem_flatMap.mp hs
        cases ho : oracle chunk with
        | error e => rw [ho] at hsc; exact absurd hsc (by simp)
        | ok parsed =>
          rw [ho] at hsc
          obtain ⟨h1, r, hrm, hrid⟩ := processChunk_sound tags chunk parsed s hsc
          exact ⟨h1, chunk, hchunk, r, hrm, hrid⟩
      · intro r' hr'
        by_cases hae : ((chunks20 rows).flatMap (fun chunk =>
            match oracle chunk with
            | .error _ => []
            | .ok parsed => processChunk tags chunk parsed)).isEmpty = true
        · rw [if_pos hae] at hr'
          exact Or.inl hr'
        · rw [if_neg hae] at hr'
          rcases bulkUpdateTags_shape _ stagingRows r' hr' with hmem | ⟨r, hrm, u, hu, hru⟩
          · exact Or.inl hmem
          · obtain ⟨s, hsm, hsu⟩ := List.mem_map.mp hu
            exact Or.inr ⟨r, hrm, s, hsm, by rw [hru, ← hsu]⟩

/-- C7 witness: with vocabulary [Groceries, Dining] and a model response
naming "groceries" and the hallucinated "rent" for the single row, the
accepted suggestion's tag id 5 belongs to the vocabulary and its row id
comes from the chunk. -/
theorem c7_suggest_tags_witness :
    (∃ t ∈ c7Tags, t.id = 5) ∧
    (∃ chunk ∈ chunks20 c7Rows, ∃ r ∈ chunk, r.id = 21) := by
  obtain ⟨sgs, rows', heq, _, hsound, _⟩ := c7_suggest_tags c7Tags c7Staging c7Rows c7Oracle
  have h2 : (suggestTagsAction c7Tags c7Staging c7Rows c7Oracle).1 =
      .ok [(⟨21, [5]⟩ : TagSuggestion)] := by rfl
  rw [heq] at h2
  have hs : sgs = [(⟨21, [5]⟩ : TagSuggestion)] := by simpa using h2
  obtain ⟨h1, hc⟩ := hsound ⟨21, [5]⟩ (by rw [hs]; exact List.mem_singleton.mpr rfl)
  exact ⟨h1 5 (by simp), hc⟩

/-- C8: for every behaviour of the external model collaborator, the
suggest-tags endpoint returns a success response, and when every chunk
fails it returns the empty suggestion list with the staging rows
untouched. -/
theorem c8_suggest_best_effort (tags : List Tag) (stagingRows : List ImportBatchRow)
    (rows : List RowInput) (oracle : List RowInput → Except Unit (List AiSuggestion)) :
    (∃ sgs rows', suggestTagsAction tags stagingRows rows oracle = (.ok sgs, rows')) ∧
    ((∀ chunk, oracle chunk = .error ()) →
      suggestTagsAction tags stagingRows rows oracle = (.ok [], stagingRows)) := by
  constructor
  · unfold suggestTagsAction
    by_cases ht : tags.isEmpty = true
    · rw [if_pos ht]; exact ⟨[], stagingRows, rfl⟩
    · rw [if_neg ht]
      by_cases hr : rows.isEmpty = true
      · rw [if_pos hr]; exact ⟨[], stagingRows, rfl⟩
      · rw [if_neg hr]; exact ⟨_, _, rfl⟩
  · intro hfail
    unfold suggestTagsAction
    have hnil : ∀ (l : List (List RowInput)), (l.flatMap (fun chunk =>
        match oracle chunk with
        | .error _ => []
        | .ok parsed => processChunk tags chunk parsed)) = [] := by
      intro l
      induction l with
      | nil => rfl
      | cons c cs ih =>
        rw [List.flatMap_cons, hfail c, ih]
        rfl
    by_cases ht : tags.isEmpty = true
    · rw [if_pos ht]
    · rw [if_neg ht]
      by_cases hr : rows.isEmpty = true
      · rw [if_pos hr]
      · rw [if_neg hr]
        simp only [hnil]
        rfl

/-- C8 witness: the all-chunks-fail case at concrete inputs returns success
with no suggestions and the staging rows unchanged. -/
theorem c8_suggest_best_effort_witness :
    suggestTagsAction c7Tags c7Staging c7Rows failOracle = (.ok [], c7Staging) :=
  (c8_suggest_best_effort c7Tags c7Staging c7Rows failOracle).2 (fun _ => rfl)

/-! ## Mapping lemmas -/

/-- Bulk staging-row insert appends the new rows (also when there are none). -/
theorem createManyRows_batchRows (db : Db) (data : List ImportBatchRow) :
    (createManyRows db data).batchRows = db.batchRows ++ data := by
  unfold createManyRows
  split
  · next h =>
    rw [List.isEmpty_iff.mp h]
    simp
  · rfl

/-- Membership in the duplicate-check result, for a hash that was queried:
it holds exactly when some transaction of the project stores that hash. -/
theorem checkSourceHashes_contains (db : Db) (pid : Nat) (hashes : List String)
    (h0 : String) (hmem : h0 ∈ hashes) :
    (checkSourceHashes db pid hashes).contains h0 = true ↔
      ∃ t ∈ db.transactions, t.projectId = pid ∧ t.sourceHash = some h0 := by
  have hne : hashes.isEmpty = false := by
    cases hashes with
    | nil => cases hmem
    | cons a l => rfl
  unfold checkSourceHashes
  rw [hne]
  simp only [Bool.false_eq_true, if_false, List.contains, List.elem_eq_mem,
    decide_eq_true_eq, List.mem_dedup, List.mem_filterMap, List.mem_filter]
  constructor
  · rintro ⟨t, ⟨htm, hpred⟩, hsh⟩
    rw [Bool.and_eq_true] at hpred
    exact ⟨t, htm, by simpa using hpred.1, hsh⟩
  · rintro ⟨t, htm, hpid, hsh⟩
    refine ⟨t, ⟨htm, ?_⟩, hsh⟩
    rw [Bool.and_eq_true]
    refine ⟨by simpa using hpid, ?_⟩
    rw [hsh]
    simpa using List.elem_eq_true_of_mem hmem

/-- C3: for every well-formed CSV input (batch found with a blob key, all
three columns selected and resolving to header indices), the mapping action
succeeds and creates exactly N staging rows for the N data rows; the i-th
new row carries rowIndex i, excluded = false, and isDuplicate = true exactly
when some existing transaction of the project stores the fingerprint of the
i-th data row — a byte-identical re-import is flagged, never auto-excluded. -/
theorem c3_map_creates_staging_rows (db : Db) (pid bid : Nat)
    (dc ac xc : String) (content : String) (parseCents : String → Int)
    (batch : ImportBatch) (key : String) (dateIdx amountIdx descIdx : Nat)
    (hb : findByIdAndProject db.batches bid pid = some batch)
    (hk : batch.r2Key = some key)
    (hcols : ¬(dc = "" ∨ ac = "" ∨ xc = ""))
    (hd : (parseCSV content).headers.findIdx? (fun h => h = dc) = some dateIdx)
    (ha : (parseCSV content).headers.findIdx? (fun h => h = ac) = some amountIdx)
    (hx : (parseCSV content).headers.findIdx? (fun h => h = xc) = some descIdx) :
    ∃ db3, mapAction db pid bid dc ac xc (some content) parseCents = .ok db3 ∧
      db3.batchRows.length = db.batchRows.length + (parseCSV content).rows.length ∧
      (∀ i, ∀ hi : i < (parseCSV content).rows.length,
        ∃ newRow, db3.batchRows.get? (db.batchRows.length + i) = some newRow ∧
          newRow.batchId = bid ∧ newRow.rowIndex = i ∧ newRow.excluded = false ∧
          (newRow.isDuplicate = true ↔
            ∃ t ∈ db.transactions, t.projectId = pid ∧
              t.sourceHash =
                some (hashString (rowJoin ((parseCSV content).rows.get ⟨i, hi⟩))))) := by
  simp only [mapAction, hb, hk, hd, ha, hx]
  rw [if_neg hcols]
  refine ⟨_, rfl, ?_, ?_⟩
  · rw [createManyRows_batchRows]
    simp
  · intro i hi
    rw [createManyRows_batchRows, List.get?_append_right (by simp)]
    have hidx : db.batchRows.length + i - db.batchRows.length = i := by omega
    rw [hidx, List.get?_map]
    have henum : ((parseCSV content).rows.enum).get? i =
        some (i, (parseCSV content).rows.get ⟨i, hi⟩) := by
      rw [List.get?_eq_getElem?, List.enum, List.getElem?_enumFrom,
        List.getElem?_eq_getElem hi]
      simp
    rw [henum, Option.map_some']
    refine ⟨_, rfl, rfl, rfl, rfl, ?_⟩
    have hsh : ((parseCSV content).rows.map (fun row => hashString (rowJoin row))).getD i "" =
        hashString (rowJoin ((parseCSV content).rows.get ⟨i, hi⟩)) := by
      rw [List.getD_eq_getElem?_getD, List.getElem?_map, List.getElem?_eq_getElem hi]
      simp
    have hmem : hashString (rowJoin ((parseCSV content).rows.get ⟨i, hi⟩)) ∈
        (parseCSV content).rows.map (fun row => hashString (rowJoin row)) :=
      List.mem_map_of_mem _ ((parseCSV content).rows.get_mem i hi)
    show (checkSourceHashes _ pid _).contains _ = true ↔ _
    rw [hsh]
    exact checkSourceHashes_contains _ pid _ _ hmem

set_option maxRecDepth 8000 in
/-- C3 witness: mapping the concrete two-row CSV against the concrete
store. -/
theorem c3_map_creates_staging_rows_witness :
    findByIdAndProject mapDb.batches 1 7 = some wBatch ∧
    wBatch.r2Key = some "imports/7/1.csv" ∧
    ¬("Date" = "" ∨ "Amount" = "" ∨ "Description" = "") ∧
    (parseCSV mapContent).headers.findIdx? (fun h => h = "Date") = some 0 ∧
    (parseCSV mapContent).headers.findIdx? (fun h => h = "Amount") = some 1 ∧
    (parseCSV mapContent).headers.findIdx? (fun h => h = "Description") = some 2 ∧
    (∃ db3, mapAction mapDb 7 1 "Date" "Amount" "Description" (some mapContent)
        (fun _ => 0) = .ok db3 ∧
      db3.batchRows.length = mapDb.batchRows.length + (parseCSV mapContent).rows.length ∧
      (∀ i, ∀ hi : i < (parseCSV mapContent).rows.length,
        ∃ newRow, db3.batchRows.get? (mapDb.batchRows.length + i) = some newRow ∧
          newRow.batchId = 1 ∧ newRow.rowIndex = i ∧ newRow.excluded = false ∧
          (newRow.isDuplicate = true ↔
            ∃ t ∈ mapDb.transactions, t.projectId = 7 ∧
              t.sourceHash =
                some (hashString (rowJoin ((parseCSV mapContent).rows.get ⟨i, hi⟩)))))) :=
  ⟨by decide, by decide, by decide, by decide, by decide, by decide,
    c3_map_creates_staging_rows mapDb 7 1 "Date" "Amount" "Description" mapContent
      (fun _ => 0) wBatch "imports/7/1.csv" 0 1 2 (by decide) (by decide) (by decide)
      (by decide) (by decide) (by decide)⟩

/-- C10 witness: committing a batch still in status `uploading` succeeds and
sets the status to `completed`. -/
theorem c10_commit_ignores_status_witness :
    findByIdAndProject commitWorldUploading.db.batches 1 7 =
      some { wBatch with status := .uploading } ∧
    ({ wBatch with status := .uploading } : ImportBatch).status = .uploading ∧
    getNonExcluded commitWorldUploading.db.batchRows 1 ≠ [] ∧
    (∃ w', commitAction commitWorldUploading 7 1 "2024-06-01" "2024-06-01T00:00:00Z" false =
        .ok w' ∧
      findByIdAndProject w'.db.batches 1 7 =
        some { wBatch with
          status := .completed, completedAt := some "2024-06-01T00:00:00Z", r2Key := none }) :=
  ⟨by decide, by decide, by decide,
    c10_commit_ignores_status commitWorldUploading 7 1 "2024-06-01" "2024-06-01T00:00:00Z"
      { wBatch with status := .uploading } .uploading (by decide) (by decide) (by decide)⟩

end KumoBudget
